import Mathlib

/-!
Shallow embedding of `app.py` of the stock-chat-app repository
(a FastAPI demo serving carousels of templates / hotels / stocks with a
background "live engine" and a WebSocket subscription stream), together
with theorems settling the specification claims about it.

Conventions of the embedding:
* Python strings are modelled as Lean `String` / `List Char`.
* Python `float` values (stock prices, percent draws) are modelled as `ℚ`;
  the two-decimal formatting `f"{x:.2f}"` is modelled exactly as rounding
  to hundredths (the tie-breaking of binary floats is immaterial to every
  claim below and is fixed as round-half-up here).
* Python `dict` state (`LIVE`) is modelled as a function `String → Option LiveEntry`.
* Fallible Python operations (`int(...)`, `float(...)`, `json.loads`,
  `dict[...]` lookup) are modelled with `Option`; an uncaught exception
  aborting a loop is modelled by the surrounding driver stopping on `none`.
-/

namespace StockChat

/-! ### Decimal digit and string primitives

These model Python's rendering of integers (`str`, `f"{n:,}"`) and parsing
(`int(...)`, `float(...)`) at the level of character lists. -/

/-- The character for a single decimal digit (digits `0`–`9`). -/
def digitChar : Nat → Char
  | 0 => '0' | 1 => '1' | 2 => '2' | 3 => '3' | 4 => '4'
  | 5 => '5' | 6 => '6' | 7 => '7' | 8 => '8' | 9 => '9'
  | _ => '?'

/-- Numeric value of a decimal digit character. -/
def charToDigit (c : Char) : Nat := c.toNat - 48

/-- Value of a little-endian list of decimal digits. -/
def ofDigitsLE : List Nat → Nat
  | [] => 0
  | d :: ds => d + 10 * ofDigitsLE ds

/-- Little-endian decimal digits of `n`, with explicit fuel (structural). -/
def digitsFuel : Nat → Nat → List Nat
  | 0, _ => []
  | _ + 1, 0 => []
  | fuel + 1, n + 1 => ((n + 1) % 10) :: digitsFuel fuel ((n + 1) / 10)

/-- Little-endian decimal digits of `n`; `0` renders as `[0]`, as in Python. -/
def littleDigits (n : Nat) : List Nat := if n = 0 then [0] else digitsFuel n n

/-- Little-endian character rendering of `n`. -/
def natCharsLE (n : Nat) : List Char := (littleDigits n).map digitChar

/-- Decimal rendering of `n` as characters (big-endian), i.e. Python `str(n)`. -/
def natChars (n : Nat) : List Char := (natCharsLE n).reverse

/-- Python `str(n)` / `f"{n}"`. -/
def natStr (n : Nat) : String := String.mk (natChars n)

/-- Insert `','` after every three digits of a little-endian digit string;
the counter says how many digits remain before the next comma. -/
def commaGroupLE : List Char → Nat → List Char
  | [], _ => []
  | c :: cs, 0 => ',' :: c :: commaGroupLE cs 2
  | c :: cs, k + 1 => c :: commaGroupLE cs k

/-- Python `f"{n:,}"`: decimal rendering with thousands separators. -/
def commaChars (n : Nat) : List Char := (commaGroupLE (natCharsLE n) 3).reverse

/-- Python `f"{n:,}"` as a `String`. -/
def commaStr (n : Nat) : String := String.mk (commaChars n)

/-- Python `int(token)` on a string of characters: succeeds exactly on a
nonempty all-digit token (sign/underscore forms never arise in this code). -/
def parseNatChars (cs : List Char) : Option Nat :=
  if cs.isEmpty then none
  else if cs.all Char.isDigit then some (ofDigitsLE ((cs.map charToDigit).reverse))
  else none

/-- Python `s.split()[0]`: drop leading whitespace, take up to the next
whitespace character. (An all-whitespace string gives `[]`, which the
subsequent `int` parse rejects, matching the `IndexError`/`ValueError`.) -/
def firstToken (cs : List Char) : List Char :=
  (cs.dropWhile Char.isWhitespace).takeWhile (fun c => !c.isWhitespace)

/-- Python `int(s.split()[0].replace(",", ""))` — the live engine's parse of a
template usage counter (app.py line 211). -/
def parseUses (s : String) : Option Nat :=
  parseNatChars ((firstToken s.toList).filter (fun c => c != ','))

/-! ### Two-decimal rendering and parsing of prices

`f"{x:.2f}"` / `float(...)` on the stock price strings.  Stock prices are
modelled as rationals; `round100 q` is the integer of hundredths that
Python's two-decimal formatting displays. -/

/-- Hundredths displayed by `f"{q:.2f}"`: `⌊100·q + 1/2⌋`, computed on
numerator and denominator so that it evaluates by kernel reduction. -/
def round100 (q : ℚ) : ℤ := (200 * q.num + q.den) / (2 * q.den)

/-- The value a reader recovers from the two-decimal rendering of `q`. -/
def round2 (q : ℚ) : ℚ := Rat.divInt (round100 q) 100

/-- Two-digit fractional part (with leading zero), e.g. `07`. -/
def fracTwoChars (m : Nat) : List Char := [digitChar (m / 10), digitChar (m % 10)]

/-- Python `f"{q:.2f}"` for the nonnegative values used by the program. -/
def fmt2 (q : ℚ) : String :=
  String.mk (natChars ((round100 q).toNat / 100) ++ '.' :: fracTwoChars ((round100 q).toNat % 100))

/-- Python `f"{q:+.2f}"` (explicit sign). -/
def fmtSigned2 (q : ℚ) : String :=
  if q < 0 then "-" ++ fmt2 (-q) else "+" ++ fmt2 q

/-- Python `float(token)` restricted to the decimal forms this program
produces (`digits` or `digits.digits`); other inputs raise, i.e. `none`. -/
def parseDec (cs : List Char) : Option ℚ :=
  match cs.dropWhile (fun c => c != '.') with
  | [] => (parseNatChars cs).map (fun n => (n : ℚ))
  | _ :: frac =>
    match parseNatChars (cs.takeWhile (fun c => c != '.')), parseNatChars frac with
    | some a, some b => some ((a : ℚ) + Rat.divInt b ((10 : ℤ) ^ frac.length))
    | _, _ => none

/-- Python `float(s.replace("₹", ""))` — the live engine's parse of a stored stock
price (app.py line 228). -/
def parsePrice (s : String) : Option ℚ :=
  parseDec (s.toList.filter (fun c => c != '₹'))

/-! ### Catalogs and the Live State Table (app.py lines 49–107) -/

/-- One value of the `LIVE` dict: display strings plus a timestamp. -/
structure LiveEntry where
  primary_value : String
  secondary_value : String
  updated_at : Nat
deriving DecidableEq

/-- Ids of the `TEMPLATES` catalog (app.py lines 49–55). -/
def templateIds : List String :=
  ["tpl_ig_post", "tpl_resume", "tpl_pitch", "tpl_logo", "tpl_story"]

/-- Ids of the `HOTELS` catalog (app.py lines 57–63). -/
def hotelIds : List String := ["htl_1", "htl_2", "htl_3", "htl_4", "htl_5"]

/-- Ids of the `STOCKS` catalog (app.py lines 65–71). -/
def stockIds : List String :=
  ["stk_RELIANCE", "stk_TCS", "stk_HDFCBANK", "stk_INFOSYS", "stk_ITC"]

/-- Every catalog id, in the order `init_live_state` visits them. -/
def allIds : List String := templateIds ++ hotelIds ++ stockIds

/-- The `LIVE` dict: item id to current live entry. -/
abbrev Table := String → Option LiveEntry

/-- The empty dict `LIVE` before initialization. -/
def emptyTable : Table := fun _ => none

/-- Dict assignment, `LIVE` at key `k` set to `v`. -/
def setEntry (t : Table) (k : String) (v : LiveEntry) : Table :=
  fun k' => if k' = k then some v else t k'

/-- The random draws and the clock reading of one initialization or one tick
pass, one draw per item id.  Ranges (`randint`/`uniform` bounds) appear as
hypotheses on the theorems that need them. -/
structure Draws where
  tUses  : String → Nat -- init: randint(1_000, 50_000)
  tIncr  : String → Nat -- tick: randint(0, 120)
  tWk    : String → Nat -- randint(1, 30)
  hPrice : String → Nat -- randint(1800, 12000)
  hDisc  : String → Nat -- randint(5, 40)
  sPrice : String → ℚ   -- init: uniform(200, 3500)
  sDrift : String → ℚ   -- tick: uniform(-2.5, 2.5)
  sPct   : String → ℚ   -- uniform(-2.5, 2.5)
  now    : Nat          -- int(time.time())

/-- Template entry written by `init_live_state` (app.py lines 81–86); note the
initial rendering has no thousands separator. -/
def initTmpl (d : Draws) (id : String) : LiveEntry :=
  ⟨natStr (d.tUses id) ++ " uses", "+" ++ natStr (d.tWk id) ++ "% this week", d.now⟩

/-- Hotel entry written by `init_live_state` (app.py lines 89–95). -/
def initHotel (d : Draws) (id : String) : LiveEntry :=
  ⟨"₹" ++ natStr (d.hPrice id) ++ "/night", natStr (d.hDisc id) ++ "% off", d.now⟩

/-- Stock entry written by `init_live_state` (app.py lines 98–104). -/
def initStock (d : Draws) (id : String) : LiveEntry :=
  ⟨"₹" ++ fmt2 (d.sPrice id), fmtSigned2 (d.sPct id) ++ "%", d.now⟩

/-- Python `init_live_state()` (app.py lines 79–107): populate `LIVE` for all three
catalogs, templates then hotels then stocks. -/
def init_live_state (d : Draws) : Table :=
  let t1 := templateIds.foldl (fun t id => setEntry t id (initTmpl d id)) emptyTable
  let t2 := hotelIds.foldl (fun t id => setEntry t id (initHotel d id)) t1
  stockIds.foldl (fun t id => setEntry t id (initStock d id)) t2

/-! ### The tick engine (app.py lines 206–235)

Each per-item update can raise (`KeyError` on a missing id, `ValueError` /
`float` failure on an unparseable stored string); `none` models the raised
exception.  `runUpdates` sequences updates and aborts at the first raise,
leaving earlier mutations applied, exactly as an uncaught Python exception
would. -/

/-- One template update of `live_engine` (app.py lines 209–215). -/
def tmplStep (d : Draws) (t : Table) (id : String) : Option Table :=
  match t id with
  | none => none
  | some v =>
    match parseUses v.primary_value with
    | none => none
    | some uses =>
      some (setEntry t id
        ⟨commaStr (uses + d.tIncr id) ++ " uses",
         "+" ++ natStr (d.tWk id) ++ "% this week", d.now⟩)

/-- One hotel update of `live_engine` (app.py lines 218–224): the entry is
reseeded wholesale; nothing is read, so nothing can raise. -/
def hotelStep (d : Draws) (t : Table) (id : String) : Option Table :=
  some (setEntry t id
    ⟨"₹" ++ natStr (d.hPrice id) ++ "/night", natStr (d.hDisc id) ++ "% off", d.now⟩)

/-- One stock update of `live_engine` (app.py lines 227–233): random walk on
the stored price, percent field drawn fresh. -/
def stockStep (d : Draws) (t : Table) (id : String) : Option Table :=
  match t id with
  | none => none
  | some v =>
    match parsePrice v.primary_value with
    | none => none
    | some old =>
      some (setEntry t id
        ⟨"₹" ++ fmt2 (max 1 (old + d.sDrift id)), fmtSigned2 (d.sPct id) ++ "%", d.now⟩)

/-- Run one catalog's updates in order, aborting at the first raise. -/
def runUpdates (upd : Table → String → Option Table) : Table → List String → Bool × Table
  | t, [] => (true, t)
  | t, id :: rest =>
    match upd t id with
    | none => (false, t)
    | some t' => runUpdates upd t' rest

/-- One full pass of `live_engine`'s `while True` body (app.py lines 208–233):
templates, then hotels, then stocks. -/
def tickPass (d : Draws) (t : Table) : Bool × Table :=
  match runUpdates (tmplStep d) t templateIds with
  | (false, t1) => (false, t1)
  | (true, t1) =>
    match runUpdates (hotelStep d) t1 hotelIds with
    | (false, t2) => (false, t2)
    | (true, t2) => runUpdates (stockStep d) t2 stockIds

/-- The `live_engine()` loop run for finitely many passes with the given draws; an
uncaught exception in a pass ends the loop (and the task) early. -/
def runEngine : Table → List Draws → Bool × Table
  | t, [] => (true, t)
  | t, d :: ds =>
    match tickPass d t with
    | (false, t') => (false, t')
    | (true, t') => runEngine t' ds

/-! ### Intent routing (app.py lines 139–150) -/

/-- Keyword set of the templates branch (app.py line 142). -/
def templateKws : List String :=
  ["template", "design", "canva", "poster", "resume", "logo", "story"]

/-- Keyword set of the hotels branch (app.py line 144). -/
def hotelKws : List String :=
  ["hotel", "booking", "stay", "room", "goa", "mumbai", "delhi",
   "bangalore", "bengaluru", "jaipur"]

/-- Keyword set of the stocks branch (app.py line 146). -/
def stockKws : List String :=
  ["stock", "price", "buy", "sell", "nse", "reliance", "tcs", "hdfc", "infy", "itc"]

/-- Keyword set of the explicit catch-all branch (app.py line 148). -/
def exploreKws : List String := ["all", "everything", "explore", "discover"]

/-- Does the needle occur at the head of the haystack? -/
def listStarts : List Char → List Char → Bool
  | [], _ => true
  | _ :: _, [] => false
  | a :: as, b :: bs => a == b && listStarts as bs

/-- Python substring test `needle in haystack`. -/
def listContains (needle : List Char) : List Char → Bool
  | [] => needle.isEmpty
  | c :: rest => listStarts needle (c :: rest) || listContains needle rest

/-- Python `s.strip()`. -/
def pyStrip (cs : List Char) : List Char :=
  ((cs.dropWhile Char.isWhitespace).reverse.dropWhile Char.isWhitespace).reverse

/-- Python `s.lower()` (the messages involved are ASCII). -/
def pyLower (cs : List Char) : List Char := cs.map Char.toLower

/-- The normalized query `(message or "").strip().lower()` (app.py line 140). -/
def normQuery (message : String) : List Char := pyLower (pyStrip message.toList)

/-- Python `any(k in q for k in kws)`. -/
def anyKw (kws : List String) (q : List Char) : Bool :=
  kws.any (fun k => listContains k.toList q)

/-- Python `route_intent` (app.py lines 139–150). -/
def route_intent (message : String) : String :=
  let q := normQuery message
  if anyKw templateKws q then "templates"
  else if anyKw hotelKws q then "hotels"
  else if anyKw stockKws q then "stocks"
  else if anyKw exploreKws q then "all"
  else "all"

/-! ### The WebSocket live stream handler `ws_live` (app.py lines 243–271)

One iteration of the handler's `while True` loop is modelled as a pure
function of: the live table, the connection's current subscription list, and
the inbound event of this iteration (a timed-out receive, or one message
abstracted by `InMsg`).  The result is the new subscription list plus the
messages sent this iteration, or `Except.error ()` when an uncaught
exception terminates the handler. -/

/-- The inbound frame, abstracted at the level `ws_live` inspects it. -/
inductive InMsg where
  /-- A payload `json.loads` cannot parse — or one that parses to a
  non-object, so that `data.get` raises `AttributeError`.  Neither
  exception is caught: the inner `except` catches only
  `asyncio.TimeoutError`, the outer only `WebSocketDisconnect`. -/
  | malformed : InMsg
  /-- A JSON object whose `"type"` is anything other than `"subscribe"`
  (the result of `data.get("type")` is modelled as an optional string;
  a non-string `"type"` value also compares unequal and lands here). -/
  | other (ty : Option String) : InMsg
  /-- A subscribe message (type `subscribe` with an `item_ids` list); `none` models a missing or
  null `item_ids`, which `data.get("item_ids") or []` turns into `[]`. -/
  | subscribe (item_ids : Option (List String)) : InMsg

/-- Outcome of the `asyncio.wait_for(ws.receive_text(), timeout=0.25)` step. -/
inductive Inbound where
  | timeout : Inbound
  | msg (m : InMsg) : Inbound

/-- A frame sent by the server on `/ws/live`. -/
inductive OutMsg where
  | subscribedMsg (item_ids : List String) : OutMsg
  | update (data : List (String × LiveEntry)) : OutMsg
deriving DecidableEq

/-- First-occurrence key deduplication, with an accumulator of seen keys:
how a Python dict comprehension collapses duplicate keys (position of first
occurrence; the value — here always `LIVE[i]` — is the same for every
occurrence). -/
def dedupKeysAux : List String → List String → List String
  | _, [] => []
  | seen, x :: xs =>
    if x ∈ seen then dedupKeysAux seen xs else x :: dedupKeysAux (x :: seen) xs

/-- Keys of a dict comprehension iterating the given list. -/
def dedupKeys (l : List String) : List String := dedupKeysAux [] l

/-- The dict comprehension over `subscribed` of the present ids' entries (app.py line 267). -/
def snapshot (t : Table) (subs : List String) : List (String × LiveEntry) :=
  (dedupKeys subs).filterMap (fun i => (t i).map (fun e => (i, e)))

/-- One iteration of the `while True` body of `ws_live` (app.py lines
255–268): receive-or-timeout, optional subscription replacement and
confirmation, then the push step. -/
def wsIterate (t : Table) (subs : List String) (inb : Inbound) :
    Except Unit (List String × List OutMsg) :=
  let recvStep : Except Unit (List String × List OutMsg) :=
    match inb with
    | .timeout => .ok (subs, [])
    | .msg .malformed => .error ()
    | .msg (.other _) => .ok (subs, [])
    | .msg (.subscribe ids) =>
      let requested := ids.getD []
      let subs' := requested.filter (fun i => (t i).isSome)
      .ok (subs', [.subscribedMsg subs'])
  match recvStep with
  | .error e => .error e
  | .ok (subs', out) =>
    if subs'.isEmpty then .ok (subs', out)
    else .ok (subs', out ++ [.update (snapshot t subs')])

/-- Is this frame a push (`"type": "update"`) frame? -/
def isUpdate : OutMsg → Bool
  | .update _ => true
  | _ => false

/-- Definition following the SPEC's words, for comparison with the code:
"a `subscribed` confirmation containing exactly the valid subset, preserving
relative order of first occurrence". -/
def specValidSubset (t : Table) (requested : List String) : List String :=
  dedupKeys (requested.filter (fun i => (t i).isSome))

/-! ### `/api/order` (spec §6; no handler exists under src/) -/

/-- Response of the order endpoint. -/
inductive OrderResp where
  | failure (error : String) : OrderResp
  | success (message : String) (order_id : String) : OrderResp
deriving DecidableEq

/-- The known symbol universe of the order endpoint: the NSE symbols of the
stock catalog (the spec's §8 scenarios use `NSE:RELIANCE`, `NSE:TCS`). -/
def knownSymbols : List String :=
  ["NSE:RELIANCE", "NSE:TCS", "NSE:HDFCBANK", "NSE:INFY", "NSE:ITC"]

/-- Modelled from the spec: `POST /api/order` has no handler in src/ (the
spec §6 lists it, for the ticker-demo deployment profile whose source is not
in the repository snapshot).  Faithful to the spec's words: request
`{symbol, side: "BUY"|"SELL", qty: integer}`; `{ok:false, error:string}` "if
symbol unknown, side invalid, or qty ≤ 0" — validated in the spec's listing
order, with the error strings the spec's §8 scenarios give for the side and
qty cases; else `{ok:true, message, order_id}` with a generated id
("a prefix + timestamp + random suffix"). -/
def api_order (symbol side : String) (qty : Int) (nowTs rand : Nat) : OrderResp :=
  if symbol ∉ knownSymbols then .failure "Unknown symbol"
  else if side ≠ "BUY" ∧ side ≠ "SELL" then .failure "Invalid side"
  else if qty ≤ 0 then .failure "Qty must be > 0"
  else
    .success ("Order placed: " ++ side ++ " " ++ natStr qty.toNat ++ " " ++ symbol)
      ("ORD-" ++ natStr nowTs ++ "-" ++ natStr rand)

/-! ### Concrete sample inputs used by witnesses and counterexamples -/

/-- A concrete set of draws (each within its documented range). -/
def sampleDraws : Draws where
  tUses := fun _ => 12000
  tIncr := fun _ => 50
  tWk := fun _ => 10
  hPrice := fun _ => 4500
  hDisc := fun _ => 20
  sPrice := fun _ => 300
  sDrift := fun _ => 1
  sPct := fun _ => 2
  now := 1700000000

/-- The table right after initialization with `sampleDraws`. -/
def sampleTable : Table := init_live_state sampleDraws

/-- An externally corrupted table: the entry of `tpl_ig_post` holds a
primary value whose first token `int(...)` cannot parse. -/
def badTable : Table :=
  setEntry sampleTable "tpl_ig_post" ⟨"N/A uses", "+1% this week", 0⟩

/-- The bounded random walk of the stock price as stored and re-read through
its two-decimal rendering: each pass reads back the rounded previous value
`p`, then stores `max 1 (p + drift)` rounded to hundredths. -/
def walk (p : ℚ) (ds : List ℚ) : ℚ :=
  ds.foldl (fun p d => round2 (max 1 (p + d))) p

/-- A second set of draws, distinguishable from `sampleDraws` in every
field a tick pass writes. -/
def sampleDraws2 : Draws where
  tUses := fun _ => 33333
  tIncr := fun _ => 80
  tWk := fun _ => 25
  hPrice := fun _ => 9999
  hDisc := fun _ => 35
  sPrice := fun _ => 2000
  sDrift := fun _ => 2
  sPct := fun _ => 1
  now := 1700000999

/-- A table whose single stock entry stores price `100` — the state after a
first tick that left the price at `100.00`. -/
def pctTable : Table :=
  setEntry emptyTable "stk_TCS" ⟨"₹" ++ fmt2 100, "+2.00%", 0⟩

/-- Tick draws with zero drift and a percent draw of `+1`. -/
def pctDrawsA : Draws where
  tUses := fun _ => 0
  tIncr := fun _ => 0
  tWk := fun _ => 1
  hPrice := fun _ => 1800
  hDisc := fun _ => 5
  sPrice := fun _ => 200
  sDrift := fun _ => 0
  sPct := fun _ => 1
  now := 7

/-- Tick draws with zero drift and a percent draw of `+2`. -/
def pctDrawsB : Draws where
  tUses := fun _ => 0
  tIncr := fun _ => 0
  tWk := fun _ => 1
  hPrice := fun _ => 1800
  hDisc := fun _ => 5
  sPrice := fun _ => 200
  sDrift := fun _ => 0
  sPct := fun _ => 2
  now := 7

/-! #### Round-trip lemmas for the decimal machinery -/

theorem ofDigitsLE_digitsFuel : ∀ fuel n, n ≤ fuel → ofDigitsLE (digitsFuel fuel n) = n := by
  intro fuel
  induction fuel with
  | zero => intro n hn; interval_cases n; rfl
  | succ f ih =>
    intro n hn
    match n with
    | 0 => rfl
    | m + 1 =>
      have hdiv : (m + 1) / 10 ≤ f := by
        have : (m + 1) / 10 < m + 1 := Nat.div_lt_self (Nat.succ_pos m) (by norm_num)
        omega
      simp only [digitsFuel, ofDigitsLE, ih _ hdiv]
      exact Nat.mod_add_div (m + 1) 10

theorem digitsFuel_lt_ten : ∀ fuel n d, d ∈ digitsFuel fuel n → d < 10 := by
  intro fuel
  induction fuel with
  | zero => intro n d h; simp [digitsFuel] at h
  | succ f ih =>
    intro n d h
    match n with
    | 0 => simp [digitsFuel] at h
    | m + 1 =>
      simp only [digitsFuel, List.mem_cons] at h
      rcases h with h | h
      · subst h; exact Nat.mod_lt _ (by norm_num)
      · exact ih _ _ h

theorem littleDigits_lt_ten {n d : Nat} (h : d ∈ littleDigits n) : d < 10 := by
  unfold littleDigits at h
  split at h
  · simp at h; omega
  · exact digitsFuel_lt_ten _ _ _ h

theorem littleDigits_ne_nil (n : Nat) : littleDigits n ≠ [] := by
  unfold littleDigits
  split
  · simp
  · next h =>
    match n, h with
    | m + 1, _ => simp [digitsFuel]

theorem ofDigitsLE_littleDigits (n : Nat) : ofDigitsLE (littleDigits n) = n := by
  unfold littleDigits
  split
  · simp [ofDigitsLE]; omega
  · exact ofDigitsLE_digitsFuel n n le_rfl

theorem charToDigit_digitChar {d : Nat} (h : d < 10) : charToDigit (digitChar d) = d := by
  interval_cases d <;> decide

theorem digitChar_isDigit {d : Nat} (h : d < 10) : (digitChar d).isDigit = true := by
  interval_cases d <;> decide

theorem digitChar_ne_comma {d : Nat} (h : d < 10) : digitChar d ≠ ',' := by
  interval_cases d <;> decide

theorem digitChar_not_ws {d : Nat} (h : d < 10) : (digitChar d).isWhitespace = false := by
  interval_cases d <;> decide

theorem parseNatChars_natChars (n : Nat) : parseNatChars (natChars n) = some n := by
  have hne : natChars n ≠ [] := by
    simp [natChars, natCharsLE, littleDigits_ne_nil n]
  have hdig : (natChars n).all Char.isDigit = true := by
    simp only [natChars, natCharsLE, List.all_eq_true, List.mem_reverse, List.mem_map]
    rintro c ⟨d, hd, rfl⟩
    exact digitChar_isDigit (littleDigits_lt_ten hd)
  rw [parseNatChars, if_neg (by simpa using hne), if_pos hdig]
  congr 1
  rw [natChars, natCharsLE, List.map_reverse, List.reverse_reverse, List.map_map]
  rw [show (littleDigits n).map (charToDigit ∘ digitChar) = littleDigits n by
    have h1 : (littleDigits n).map (charToDigit ∘ digitChar)
        = (littleDigits n).map (fun d => d) :=
      List.map_congr_left fun d hd => charToDigit_digitChar (littleDigits_lt_ten hd)
    simpa using h1]
  exact ofDigitsLE_littleDigits n

theorem mem_commaGroupLE : ∀ (cs : List Char) (k c), c ∈ commaGroupLE cs k → c = ',' ∨ c ∈ cs := by
  intro cs
  induction cs with
  | nil => intro k c h; simp [commaGroupLE] at h
  | cons a as ih =>
    intro k c h
    match k with
    | 0 =>
      simp only [commaGroupLE, List.mem_cons] at h
      rcases h with h | h | h
      · exact Or.inl h
      · exact Or.inr (by simp [h])
      · rcases ih _ _ h with h' | h'
        · exact Or.inl h'
        · exact Or.inr (List.mem_cons_of_mem _ h')
    | k + 1 =>
      simp only [commaGroupLE, List.mem_cons] at h
      rcases h with h | h
      · exact Or.inr (by simp [h])
      · rcases ih _ _ h with h' | h'
        · exact Or.inl h'
        · exact Or.inr (List.mem_cons_of_mem _ h')

theorem filter_commaGroupLE : ∀ (cs : List Char) (k), (∀ c ∈ cs, c ≠ ',') →
    (commaGroupLE cs k).filter (fun c => c != ',') = cs := by
  intro cs
  induction cs with
  | nil => intro k _; simp [commaGroupLE]
  | cons a as ih =>
    intro k h
    have ha : (a != ',') = true := by
      simpa using h a (List.mem_cons_self a as)
    have has : ∀ c ∈ as, c ≠ ',' := fun c hc => h c (List.mem_cons_of_mem _ hc)
    match k with
    | 0 => simp [commaGroupLE, List.filter, ha, ih 2 has]
    | k + 1 => simp [commaGroupLE, List.filter, ha, ih k has]

theorem takeWhile_append_stop (A B : List Char)
    (hA : ∀ c ∈ A, c.isWhitespace = false) :
    (A ++ ' ' :: B).takeWhile (fun c => !c.isWhitespace) = A := by
  induction A with
  | nil => simp [List.takeWhile]
  | cons a as ih =>
    have ha : a.isWhitespace = false := hA a (List.mem_cons_self a as)
    have has : ∀ c ∈ as, c.isWhitespace = false := fun c hc => hA c (List.mem_cons_of_mem _ hc)
    simp [List.takeWhile, ha, ih has]

theorem firstToken_append (A B : List Char)
    (hA : ∀ c ∈ A, c.isWhitespace = false) (hne : A ≠ []) :
    firstToken (A ++ ' ' :: B) = A := by
  match A, hne with
  | a :: as, _ =>
    have ha : a.isWhitespace = false := hA a (List.mem_cons_self a as)
    rw [firstToken, List.cons_append, List.dropWhile_cons_of_neg (by simp [ha])]
    rw [← List.cons_append]
    exact takeWhile_append_stop _ _ hA

theorem natChars_not_ws {n : Nat} {c : Char} (h : c ∈ natChars n) : c.isWhitespace = false := by
  simp only [natChars, natCharsLE, List.mem_reverse, List.mem_map] at h
  obtain ⟨d, hd, rfl⟩ := h
  exact digitChar_not_ws (littleDigits_lt_ten hd)

theorem natChars_ne_nil (n : Nat) : natChars n ≠ [] := by
  simp [natChars, natCharsLE, littleDigits_ne_nil n]

theorem commaChars_not_ws {n : Nat} {c : Char} (h : c ∈ commaChars n) :
    c.isWhitespace = false := by
  rw [commaChars, List.mem_reverse] at h
  rcases mem_commaGroupLE _ _ _ h with h' | h'
  · subst h'; decide
  · simp only [natCharsLE, List.mem_map] at h'
    obtain ⟨d, hd, rfl⟩ := h'
    exact digitChar_not_ws (littleDigits_lt_ten hd)

theorem commaChars_ne_nil (n : Nat) : commaChars n ≠ [] := by
  rw [commaChars]
  intro h
  rw [List.reverse_eq_nil_iff] at h
  have := littleDigits_ne_nil n
  match hld : littleDigits n, this with
  | d :: ds, _ =>
    rw [natCharsLE, hld] at h
    simp [commaGroupLE] at h

theorem toList_append_str (l : List Char) (t : String) :
    (String.mk l ++ t).toList = l ++ t.toList := rfl

/-- Parsing the live engine's own comma-grouped rendering recovers the counter. -/
theorem parseUses_commaStr (n : Nat) : parseUses (commaStr n ++ " uses") = some n := by
  rw [parseUses, commaStr, toList_append_str]
  rw [show (" uses" : String).toList = ' ' :: "uses".toList from rfl]
  rw [firstToken_append _ _ (fun c hc => commaChars_not_ws hc) (commaChars_ne_nil n)]
  have hfilter : (commaChars n).filter (fun c => c != ',') = natChars n := by
    rw [commaChars, natChars, List.filter_reverse]
    congr 1
    exact filter_commaGroupLE _ 3 fun c hc => by
      simp only [natCharsLE, List.mem_map] at hc
      obtain ⟨d, hd, rfl⟩ := hc
      exact digitChar_ne_comma (littleDigits_lt_ten hd)
  rw [hfilter]
  exact parseNatChars_natChars n

/-- Parsing the plain (no separator) initial rendering recovers the counter. -/
theorem parseUses_natStr (n : Nat) : parseUses (natStr n ++ " uses") = some n := by
  rw [parseUses, natStr, toList_append_str]
  rw [show (" uses" : String).toList = ' ' :: "uses".toList from rfl]
  rw [firstToken_append _ _ (fun c hc => natChars_not_ws hc) (natChars_ne_nil n)]
  have hfilter : (natChars n).filter (fun c => c != ',') = natChars n :=
    List.filter_eq_self.2 fun c hc => by
      simp only [natChars, natCharsLE, List.mem_reverse, List.mem_map] at hc
      obtain ⟨d, hd, rfl⟩ := hc
      simpa using digitChar_ne_comma (littleDigits_lt_ten hd)
  rw [hfilter]
  exact parseNatChars_natChars n

theorem takeWhile_append_of_stop (p : Char → Bool) (A B : List Char) (b : Char)
    (hA : ∀ c ∈ A, p c = true) (hb : p b = false) :
    (A ++ b :: B).takeWhile p = A := by
  induction A with
  | nil => simp [List.takeWhile, hb]
  | cons a as ih =>
    have ha : p a = true := hA a (List.mem_cons_self a as)
    have has : ∀ c ∈ as, p c = true := fun c hc => hA c (List.mem_cons_of_mem _ hc)
    simp [List.takeWhile, ha, ih has]

theorem dropWhile_append_of_stop (p : Char → Bool) (A B : List Char) (b : Char)
    (hA : ∀ c ∈ A, p c = true) (hb : p b = false) :
    (A ++ b :: B).dropWhile p = b :: B := by
  induction A with
  | nil => simp [List.dropWhile, hb]
  | cons a as ih =>
    have ha : p a = true := hA a (List.mem_cons_self a as)
    have has : ∀ c ∈ as, p c = true := fun c hc => hA c (List.mem_cons_of_mem _ hc)
    simp [List.dropWhile, ha, ih has]

theorem digitChar_ne_dot {d : Nat} (h : d < 10) : digitChar d ≠ '.' := by
  interval_cases d <;> decide

theorem digitChar_ne_rupee {d : Nat} (h : d < 10) : digitChar d ≠ '₹' := by
  interval_cases d <;> decide

theorem round100_eq_floor (q : ℚ) : round100 q = ⌊(100 : ℚ) * q + 1 / 2⌋ := by
  have hd : (q.den : ℚ) ≠ 0 := Nat.cast_ne_zero.2 q.den_nz
  have hq : (q.num : ℚ) = q * (q.den : ℚ) := (div_eq_iff hd).1 (Rat.num_div_den q)
  have key : (100 : ℚ) * q + 1 / 2
      = ((200 * q.num + (q.den : ℤ) : ℤ) : ℚ) / ((2 * q.den : ℕ) : ℚ) := by
    push_cast
    field_simp
    linear_combination (-400 : ℚ) * hq
  rw [key, Rat.floor_intCast_div_natCast, round100]
  push_cast
  rfl

theorem round100_nonneg {q : ℚ} (h : 0 ≤ q) : 0 ≤ round100 q := by
  rw [round100_eq_floor]
  rw [Int.le_floor]
  push_cast
  linarith

theorem round100_ge {q : ℚ} (h : 1 ≤ q) : 100 ≤ round100 q := by
  rw [round100_eq_floor]
  rw [Int.le_floor]
  push_cast
  linarith

theorem round2_ge_one {q : ℚ} (h : 1 ≤ q) : 1 ≤ round2 q := by
  rw [round2, Rat.divInt_eq_div]
  push_cast
  rw [le_div_iff₀ (by norm_num : (0:ℚ) < 100)]
  have h' : (100 : ℚ) ≤ (round100 q : ℚ) := by exact_mod_cast round100_ge h
  linarith

theorem parseNatChars_fracTwoChars {m : Nat} (h : m < 100) :
    parseNatChars (fracTwoChars m) = some m := by
  have h1 : m / 10 < 10 := by omega
  have h2 : m % 10 < 10 := Nat.mod_lt _ (by norm_num)
  rw [fracTwoChars, parseNatChars]
  rw [if_neg (by simp), if_pos (by simp [digitChar_isDigit h1, digitChar_isDigit h2])]
  simp only [List.map_cons, List.map_nil, List.reverse_cons, List.reverse_nil,
    List.nil_append, List.cons_append, ofDigitsLE]
  rw [charToDigit_digitChar h1, charToDigit_digitChar h2]
  congr 1
  omega

/-- Reading back the two-decimal rendering of a nonnegative rational yields
exactly its rounded-to-hundredths value. -/
theorem parseDec_fmt2 {q : ℚ} (h : 0 ≤ q) :
    parseDec (fmt2 q).toList = some (round2 q) := by
  have hA : ∀ c ∈ natChars ((round100 q).toNat / 100), (c != '.') = true := by
    intro c hc
    simp only [natChars, natCharsLE, List.mem_reverse, List.mem_map] at hc
    obtain ⟨d, hd, rfl⟩ := hc
    simpa using digitChar_ne_dot (littleDigits_lt_ten hd)
  have hlist : (fmt2 q).toList
      = natChars ((round100 q).toNat / 100) ++ '.' :: fracTwoChars ((round100 q).toNat % 100) :=
    rfl
  rw [parseDec, hlist, dropWhile_append_of_stop _ _ _ _ hA (by decide),
    takeWhile_append_of_stop _ _ _ _ hA (by decide)]
  dsimp only
  rw [parseNatChars_natChars,
    parseNatChars_fracTwoChars (Nat.mod_lt _ (by norm_num) : (round100 q).toNat % 100 < 100)]
  dsimp only
  have hlen : (fracTwoChars ((round100 q).toNat % 100)).length = 2 := rfl
  rw [hlen]
  congr 1
  set c := (round100 q).toNat with hc
  have hsplit : 100 * (c / 100) + c % 100 = c := Nat.div_add_mod c 100
  have hcast : ((c : ℤ) : ℚ) = ((round100 q : ℤ) : ℚ) := by
    rw [hc, Int.toNat_of_nonneg (round100_nonneg h)]
  rw [round2, Rat.divInt_eq_div, Rat.divInt_eq_div, ← hcast]
  rw [show ((10 : ℤ) ^ 2 : ℤ) = 100 by norm_num]
  set a := c / 100
  set b := c % 100
  rw [← hsplit]
  push_cast
  field_simp
  ring

/-! #### Key-set lemmas -/

theorem setEntry_none_iff (t : Table) (k : String) (v : LiveEntry) (k' : String) :
    setEntry t k v k' = none ↔ (k' ≠ k ∧ t k' = none) := by
  unfold setEntry
  split
  · simp [*]
  · simp [*]

theorem setEntry_pres_none_iff {t : Table} {k : String} (v : LiveEntry)
    (hk : t k ≠ none) (k' : String) :
    (setEntry t k v k' = none ↔ t k' = none) := by
  rw [setEntry_none_iff]
  constructor
  · exact fun h => h.2
  · intro h
    refine ⟨?_, h⟩
    rintro rfl
    exact hk h

theorem foldl_set_none_iff (f : String → LiveEntry) :
    ∀ (ids : List String) (t : Table) (k : String),
      (ids.foldl (fun t id => setEntry t id (f id)) t) k = none ↔ (k ∉ ids ∧ t k = none) := by
  intro ids
  induction ids with
  | nil => simp
  | cons a as ih =>
    intro t k
    rw [List.foldl_cons, ih, setEntry_none_iff]
    constructor
    · rintro ⟨h1, h2, h3⟩
      exact ⟨by simp [h1, h2], h3⟩
    · intro ⟨h1, h2⟩
      simp only [List.mem_cons, not_or] at h1
      exact ⟨h1.2, h1.1, h2⟩

theorem init_live_state_none_iff (d : Draws) (k : String) :
    init_live_state d k = none ↔ k ∉ allIds := by
  unfold init_live_state
  rw [foldl_set_none_iff, foldl_set_none_iff, foldl_set_none_iff]
  simp only [emptyTable, allIds, List.mem_append]
  tauto

theorem runUpdates_none_iff (upd : Table → String → Option Table)
    (hupd : ∀ t id t', upd t id = some t' → ∀ k, (t' k = none ↔ t k = none)) :
    ∀ (ids : List String) (t : Table) (k : String),
      ((runUpdates upd t ids).2 k = none ↔ t k = none) := by
  intro ids
  induction ids with
  | nil => intro t k; rfl
  | cons a as ih =>
    intro t k
    rw [runUpdates]
    match hstep : upd t a with
    | none => rfl
    | some t' => exact (ih t' k).trans (hupd t a t' hstep k)

theorem tmplStep_pres (d : Draws) :
    ∀ t id t', tmplStep d t id = some t' → ∀ k, (t' k = none ↔ t k = none) := by
  intro t id t' h k
  match hread : t id with
  | none => simp [tmplStep, hread] at h
  | some v =>
    match hp : parseUses v.primary_value with
    | none => simp [tmplStep, hread, hp] at h
    | some uses =>
      simp only [tmplStep, hread, hp, Option.some.injEq] at h
      subst h
      exact setEntry_pres_none_iff _ (by simp [hread]) k

theorem stockStep_pres (d : Draws) :
    ∀ t id t', stockStep d t id = some t' → ∀ k, (t' k = none ↔ t k = none) := by
  intro t id t' h k
  match hread : t id with
  | none => simp [stockStep, hread] at h
  | some v =>
    match hp : parsePrice v.primary_value with
    | none => simp [stockStep, hread, hp] at h
    | some old =>
      simp only [stockStep, hread, hp, Option.some.injEq] at h
      subst h
      exact setEntry_pres_none_iff _ (by simp [hread]) k

theorem runUpdates_hotel_none_iff (d : Draws) :
    ∀ (ids : List String) (t : Table), (∀ id ∈ ids, t id ≠ none) →
      ∀ k, ((runUpdates (hotelStep d) t ids).2 k = none ↔ t k = none) := by
  intro ids
  induction ids with
  | nil => intro t _ k; rfl
  | cons a as ih =>
    intro t hpres k
    rw [runUpdates]
    dsimp only [hotelStep]
    have ha : t a ≠ none := hpres a (List.mem_cons_self a as)
    have hset := setEntry_pres_none_iff
      (t := t) (k := a)
      ⟨"₹" ++ natStr (d.hPrice a) ++ "/night", natStr (d.hDisc a) ++ "% off", d.now⟩ ha
    refine (ih _ ?_ k).trans (hset k)
    intro id hid
    rw [Ne, hset id]
    exact hpres id (List.mem_cons_of_mem _ hid)

/-- A full tick pass (whether or not it raises part-way) never adds or
removes keys, provided every catalog id is present — which initialization
establishes. -/
theorem tickPass_none_iff (d : Draws) (t : Table)
    (h : ∀ id ∈ allIds, t id ≠ none) (k : String) :
    ((tickPass d t).2 k = none ↔ t k = none) := by
  unfold tickPass
  have htmpl : ∀ k', ((runUpdates (tmplStep d) t templateIds).2 k' = none ↔ t k' = none) :=
    fun k' => runUpdates_none_iff (tmplStep d) (tmplStep_pres d) templateIds t k'
  rcases h1 : runUpdates (tmplStep d) t templateIds with ⟨ok1, t1⟩
  have ht1 : ∀ k', (t1 k' = none ↔ t k' = none) := by
    intro k'
    have hk := htmpl k'
    rwa [h1] at hk
  cases ok1 with
  | false =>
    dsimp only
    exact ht1 k
  | true =>
    dsimp only
    have hpres1 : ∀ id ∈ hotelIds, t1 id ≠ none := by
      intro id hid
      rw [Ne, ht1 id]
      exact h id (by simp [allIds, List.mem_append, hid])
    have hhot : ∀ k', ((runUpdates (hotelStep d) t1 hotelIds).2 k' = none ↔ t1 k' = none) :=
      runUpdates_hotel_none_iff d hotelIds t1 hpres1
    rcases h2 : runUpdates (hotelStep d) t1 hotelIds with ⟨ok2, t2⟩
    have ht2 : ∀ k', (t2 k' = none ↔ t1 k' = none) := by
      intro k'
      have hk := hhot k'
      rwa [h2] at hk
    cases ok2 with
    | false =>
      dsimp only
      exact (ht2 k).trans (ht1 k)
    | true =>
      dsimp only
      exact (runUpdates_none_iff (stockStep d) (stockStep_pres d) stockIds t2 k).trans
        ((ht2 k).trans (ht1 k))


/-! ### Key-set preservation across engine runs -/

theorem runEngine_none_iff :
    ∀ (ds : List Draws) (t : Table), (∀ id ∈ allIds, t id ≠ none) →
      ∀ k, ((runEngine t ds).2 k = none ↔ t k = none) := by
  intro ds
  induction ds with
  | nil => intro t _ k; rfl
  | cons d ds ih =>
    intro t h k
    rw [runEngine]
    rcases h1 : tickPass d t with ⟨ok, t'⟩
    have ht' : ∀ k', (t' k' = none ↔ t k' = none) := by
      intro k'
      have hk := tickPass_none_iff d t h k'
      rwa [h1] at hk
    cases ok with
    | false =>
      dsimp only
      exact ht' k
    | true =>
      dsimp only
      have h' : ∀ id ∈ allIds, t' id ≠ none := by
        intro id hid
        rw [Ne, ht' id]
        exact h id hid
      exact (ih t' h' k).trans (ht' k)

/-- C1: after `init_live_state`, the Live State Table is defined on exactly
the ids of the three catalogs (one entry per id — the table is a map), and a
tick pass of the live engine never adds or removes a key, whether or not the
pass raises part-way; consequently any engine run from the initialized table
leaves the key set exactly the catalog ids. -/
theorem live_table_key_set_stable :
    (∀ (d : Draws) (k : String), init_live_state d k ≠ none ↔ k ∈ allIds)
    ∧ (∀ (d : Draws) (t : Table), (∀ id ∈ allIds, t id ≠ none) →
        ∀ k, ((tickPass d t).2 k = none ↔ t k = none))
    ∧ (∀ (d0 : Draws) (ds : List Draws) (k : String),
        ((runEngine (init_live_state d0) ds).2 k ≠ none ↔ k ∈ allIds)) := by
  refine ⟨?_, fun d t h k => tickPass_none_iff d t h k, ?_⟩
  · intro d k
    rw [Ne, init_live_state_none_iff]
    exact not_not
  · intro d0 ds k
    have h0 : ∀ id ∈ allIds, init_live_state d0 id ≠ none := by
      intro id hid
      rw [Ne, init_live_state_none_iff]
      exact fun hmem => hmem hid
    rw [Ne, runEngine_none_iff ds _ h0 k, init_live_state_none_iff]
    exact not_not

/-- Witness for `live_table_key_set_stable` at concrete inputs. -/
theorem live_table_key_set_stable_witness :
    (∀ id ∈ allIds, sampleTable id ≠ none)
    ∧ ((tickPass sampleDraws sampleTable).2 "stk_TCS" = none ↔ sampleTable "stk_TCS" = none) :=
  ⟨by decide, live_table_key_set_stable.2.1 sampleDraws sampleTable (by decide) "stk_TCS"⟩

/-- C10: parsing the engine's formatted counter string — or initialization's
plain one — recovers exactly the counter; hence a template tick turns a
stored counter `n` into `n + incr` for the pass's draw `incr` (drawn from
`[0, 120]`), and counters never decrease. -/
theorem template_counter_roundtrip :
    (∀ n : Nat, parseUses (commaStr n ++ " uses") = some n)
    ∧ (∀ n : Nat, parseUses (natStr n ++ " uses") = some n)
    ∧ (∀ (d : Draws) (t : Table) (id : String) (v : LiveEntry) (n : Nat),
        t id = some v → parseUses v.primary_value = some n →
        tmplStep d t id = some (setEntry t id
          ⟨commaStr (n + d.tIncr id) ++ " uses",
           "+" ++ natStr (d.tWk id) ++ "% this week", d.now⟩))
    ∧ (∀ (d : Draws) (id : String) (n : Nat), n ≤ n + d.tIncr id) := by
  refine ⟨parseUses_commaStr, parseUses_natStr, ?_, fun d id n => Nat.le_add_right _ _⟩
  intro d t id v n h1 h2
  simp [tmplStep, h1, h2]

/-- Witness for `template_counter_roundtrip` at concrete inputs. -/
theorem template_counter_roundtrip_witness :
    sampleTable "tpl_ig_post" = some ⟨natStr 12000 ++ " uses", "+" ++ natStr 10 ++ "% this week", 1700000000⟩
    ∧ parseUses (natStr 12000 ++ " uses") = some 12000
    ∧ tmplStep sampleDraws sampleTable "tpl_ig_post" = some (setEntry sampleTable "tpl_ig_post"
        ⟨commaStr (12000 + sampleDraws.tIncr "tpl_ig_post") ++ " uses",
         "+" ++ natStr (sampleDraws.tWk "tpl_ig_post") ++ "% this week", sampleDraws.now⟩) :=
  ⟨by decide, by decide,
    template_counter_roundtrip.2.2.1 sampleDraws sampleTable "tpl_ig_post"
      ⟨natStr 12000 ++ " uses", "+" ++ natStr 10 ++ "% this week", 1700000000⟩ 12000
      (by decide) (by decide)⟩

/-! ### The stored stock price round-trips through its rendering -/

theorem isDigit_ne_rupee {c : Char} (h : c.isDigit = true) : c ≠ '₹' := by
  rintro rfl
  exact absurd h (by decide)

theorem mem_fmt2_toList {q : ℚ} {c : Char} (h : c ∈ (fmt2 q).toList) :
    c.isDigit = true ∨ c = '.' := by
  have hlist : (fmt2 q).toList
      = natChars ((round100 q).toNat / 100) ++ '.' :: fracTwoChars ((round100 q).toNat % 100) :=
    rfl
  rw [hlist, List.mem_append, List.mem_cons] at h
  rcases h with h | h | h
  · simp only [natChars, natCharsLE, List.mem_reverse, List.mem_map] at h
    obtain ⟨d, hd, rfl⟩ := h
    exact Or.inl (digitChar_isDigit (littleDigits_lt_ten hd))
  · exact Or.inr h
  · rw [fracTwoChars, List.mem_cons, List.mem_cons] at h
    have hm : (round100 q).toNat % 100 < 100 := Nat.mod_lt _ (by norm_num)
    rcases h with h | h | h
    · subst h; exact Or.inl (digitChar_isDigit (by omega))
    · subst h; exact Or.inl (digitChar_isDigit (Nat.mod_lt _ (by norm_num)))
    · simp at h

theorem parsePrice_fmt2 {q : ℚ} (h : 0 ≤ q) :
    parsePrice ("₹" ++ fmt2 q) = some (round2 q) := by
  rw [parsePrice]
  rw [show ("₹" ++ fmt2 q).toList = '₹' :: (fmt2 q).toList from rfl]
  rw [show ('₹' :: (fmt2 q).toList).filter (fun c => c != '₹')
      = (fmt2 q).toList.filter (fun c => c != '₹') by simp [List.filter]]
  rw [List.filter_eq_self.2 fun c hc => by
    rcases mem_fmt2_toList hc with h' | h'
    · simpa using isDigit_ne_rupee h'
    · subst h'; decide]
  exact parseDec_fmt2 h

theorem stockStep_fmt2 (d : Draws) (t : Table) (id : String) (v : LiveEntry) (q : ℚ)
    (h1 : t id = some v) (h2 : v.primary_value = "₹" ++ fmt2 q) (h3 : 0 ≤ q) :
    stockStep d t id = some (setEntry t id
      ⟨"₹" ++ fmt2 (max 1 (round2 q + d.sDrift id)),
       fmtSigned2 (d.sPct id) ++ "%", d.now⟩) := by
  simp [stockStep, h1, h2, parsePrice_fmt2 h3]

theorem walk_ge_one : ∀ (ds : List ℚ) (p : ℚ), 1 ≤ p → 1 ≤ walk p ds := by
  intro ds
  induction ds with
  | nil => intro p hp; exact hp
  | cons d ds ih =>
    intro p hp
    rw [show walk p (d :: ds) = walk (round2 (max 1 (p + d))) ds from rfl]
    exact ih _ (round2_ge_one (le_max_left 1 _))

/-- C7: a stock tick stores `max(1.0, old + drift)` (re-read as its rounding
to hundredths), and from any starting price at least `1.0` the price never
falls below `1.0` after any number of passes, whatever the drift draws. -/
theorem stock_price_never_below_one :
    (∀ (d : Draws) (t : Table) (id : String) (v : LiveEntry) (q : ℚ),
        t id = some v → v.primary_value = "₹" ++ fmt2 q → 0 ≤ q →
        stockStep d t id = some (setEntry t id
          ⟨"₹" ++ fmt2 (max 1 (round2 q + d.sDrift id)),
           fmtSigned2 (d.sPct id) ++ "%", d.now⟩))
    ∧ (∀ (p dr : ℚ), 1 ≤ max 1 (p + dr))
    ∧ (∀ q : ℚ, 1 ≤ q → 1 ≤ round2 q)
    ∧ (∀ (p : ℚ) (ds : List ℚ), 1 ≤ p →
        (∀ dr ∈ ds, -(5/2 : ℚ) ≤ dr ∧ dr ≤ 5/2) → 1 ≤ walk p ds) :=
  ⟨stockStep_fmt2, fun _ _ => le_max_left 1 _, fun _ hq => round2_ge_one hq,
    fun p ds hp _ => walk_ge_one ds p hp⟩

/-- Witness for `stock_price_never_below_one` at concrete inputs. -/
theorem stock_price_never_below_one_witness :
    sampleTable "stk_RELIANCE" = some ⟨"₹" ++ fmt2 300, fmtSigned2 2 ++ "%", 1700000000⟩
    ∧ (0 : ℚ) ≤ 300 ∧ (1 : ℚ) ≤ 300
    ∧ stockStep sampleDraws sampleTable "stk_RELIANCE" = some (setEntry sampleTable "stk_RELIANCE"
        ⟨"₹" ++ fmt2 (max 1 (round2 300 + sampleDraws.sDrift "stk_RELIANCE")),
         fmtSigned2 (sampleDraws.sPct "stk_RELIANCE") ++ "%", sampleDraws.now⟩)
    ∧ 1 ≤ walk 300 [1] :=
  ⟨by decide, by decide, by decide,
    stock_price_never_below_one.1 sampleDraws sampleTable "stk_RELIANCE"
      ⟨"₹" ++ fmt2 300, fmtSigned2 2 ++ "%", 1700000000⟩ 300 (by decide) rfl (by decide),
    stock_price_never_below_one.2.2.2 300 [1] (by decide)
      (by intro dr hdr; rw [List.mem_singleton] at hdr; subst hdr; norm_num)⟩

/-- C5: evaluating the tick pass at a table whose `tpl_ig_post` entry holds
an unparseable counter (`"N/A uses"`): the raised `ValueError` aborts the
pass — the flag is false, the hotel entry is left exactly as it was (it is
not reseeded to the values this pass's draws dictate), and the engine
performs no further pass. -/
theorem tick_error_aborts_pass_and_engine :
    (tickPass sampleDraws2 badTable).1 = false
    ∧ (tickPass sampleDraws2 badTable).2 "htl_1" = badTable "htl_1"
    ∧ badTable "htl_1"
        ≠ some ⟨"₹" ++ natStr (sampleDraws2.hPrice "htl_1") ++ "/night",
            natStr (sampleDraws2.hDisc "htl_1") ++ "% off", sampleDraws2.now⟩
    ∧ runEngine badTable [sampleDraws2, sampleDraws] = (false, badTable) :=
  ⟨rfl, rfl, by decide, rfl⟩

/-- C4 counterexample: from the same table (stock price `100.00`, which is
also the value any "previous close" reference established on first tick
would hold), two tick passes with zero drift and in-range percent draws
`+1` and `+2` push the same unchanged price but different percent strings —
and neither is `"+0.00%"`, the change of the unmoved price relative to that
reference.  So the pushed percent-change is not the change of the new price
relative to a reference fixed at first tick. -/
theorem stock_pct_not_previous_close_cex :
    ((stockStep pctDrawsA pctTable "stk_TCS").map (fun tb => tb "stk_TCS"))
      = some (some ⟨"₹" ++ fmt2 100, "+1.00%", 7⟩)
    ∧ ((stockStep pctDrawsB pctTable "stk_TCS").map (fun tb => tb "stk_TCS"))
      = some (some ⟨"₹" ++ fmt2 100, "+2.00%", 7⟩)
    ∧ ("+1.00%" : String) ≠ "+2.00%"
    ∧ ("+1.00%" : String) ≠ "+0.00%" := by
  have hmax : ∀ dq : ℚ, dq = 0 → max 1 (round2 100 + dq) = 100 := by
    intro dq hdq
    subst hdq
    have h2 : round2 (100 : ℚ) = 100 := by decide
    rw [h2]
    norm_num
  have hA := stockStep_fmt2 pctDrawsA pctTable "stk_TCS"
    ⟨"₹" ++ fmt2 100, "+2.00%", 0⟩ 100 (by decide) rfl (by decide)
  have hB := stockStep_fmt2 pctDrawsB pctTable "stk_TCS"
    ⟨"₹" ++ fmt2 100, "+2.00%", 0⟩ 100 (by decide) rfl (by decide)
  rw [show pctDrawsA.sDrift "stk_TCS" = (0:ℚ) from rfl] at hA
  rw [show pctDrawsB.sDrift "stk_TCS" = (0:ℚ) from rfl] at hB
  rw [hmax _ rfl] at hA
  rw [hmax _ rfl] at hB
  exact ⟨by rw [hA]; rfl, by rw [hB]; rfl, by decide, by decide⟩

/-- C4 amended: the percent field a stock tick pushes is the pass's fresh
uniform draw, formatted with an explicit sign — a function of that draw
alone, independent of the old price, the new price, and any reference. -/
theorem stock_pct_is_fresh_draw :
    ∀ (d : Draws) (t : Table) (id : String) (v : LiveEntry) (old : ℚ),
      t id = some v → parsePrice v.primary_value = some old →
      (stockStep d t id).map (fun tb => (tb id).map (fun e => e.secondary_value))
        = some (some (fmtSigned2 (d.sPct id) ++ "%")) := by
  intro d t id v old h1 h2
  simp [stockStep, h1, h2, setEntry]

/-- Witness for `stock_pct_is_fresh_draw` at concrete inputs. -/
theorem stock_pct_is_fresh_draw_witness :
    pctTable "stk_TCS" = some ⟨"₹" ++ fmt2 100, "+2.00%", 0⟩
    ∧ (stockStep pctDrawsA pctTable "stk_TCS").map
        (fun tb => (tb "stk_TCS").map (fun e => e.secondary_value))
      = some (some (fmtSigned2 (pctDrawsA.sPct "stk_TCS") ++ "%")) :=
  ⟨by decide,
    stock_pct_is_fresh_draw pctDrawsA pctTable "stk_TCS"
      ⟨"₹" ++ fmt2 100, "+2.00%", 0⟩ (round2 100) (by decide)
      (parsePrice_fmt2 (by decide))⟩

/-! ### Dict-comprehension and snapshot lemmas -/

theorem mem_dedupKeysAux :
    ∀ (l seen : List String) (x : String), x ∈ dedupKeysAux seen l ↔ (x ∈ l ∧ x ∉ seen) := by
  intro l
  induction l with
  | nil => intro seen x; simp [dedupKeysAux]
  | cons y ys ih =>
    intro seen x
    rw [dedupKeysAux]
    split
    · next hy =>
      rw [ih]
      simp only [List.mem_cons]
      constructor
      · rintro ⟨h1, h2⟩; exact ⟨Or.inr h1, h2⟩
      · rintro ⟨h1 | h1, h2⟩
        · subst h1; exact absurd hy h2
        · exact ⟨h1, h2⟩
    · next hy =>
      simp only [List.mem_cons, ih, List.mem_cons, not_or]
      constructor
      · rintro (rfl | ⟨h1, h2, h3⟩)
        · exact ⟨Or.inl rfl, hy⟩
        · exact ⟨Or.inr h1, h3⟩
      · rintro ⟨rfl | h1, h2⟩
        · exact Or.inl rfl
        · by_cases hxy : x = y
          · exact Or.inl hxy
          · exact Or.inr ⟨h1, hxy, h2⟩

theorem mem_dedupKeys (l : List String) (x : String) : x ∈ dedupKeys l ↔ x ∈ l := by
  rw [dedupKeys, mem_dedupKeysAux]
  simp

theorem dedupKeysAux_eq_self :
    ∀ (l seen : List String), l.Nodup → (∀ x ∈ l, x ∉ seen) → dedupKeysAux seen l = l := by
  intro l
  induction l with
  | nil => intro seen _ _; rfl
  | cons y ys ih =>
    intro seen hnd hsee
    rw [dedupKeysAux, if_neg (hsee y (List.mem_cons_self y ys))]
    congr 1
    refine ih (y :: seen) (List.Nodup.of_cons hnd) ?_
    intro x hx
    simp only [List.mem_cons, not_or]
    exact ⟨fun hxy => (List.nodup_cons.1 hnd).1 (hxy ▸ hx),
      hsee x (List.mem_cons_of_mem _ hx)⟩

theorem dedupKeys_eq_self {l : List String} (h : l.Nodup) : dedupKeys l = l :=
  dedupKeysAux_eq_self l [] h (by simp)

theorem mem_snapshot (t : Table) (subs : List String) (i : String) (e : LiveEntry) :
    (i, e) ∈ snapshot t subs ↔ i ∈ subs ∧ t i = some e := by
  rw [snapshot, List.mem_filterMap]
  constructor
  · rintro ⟨a, ha, heq⟩
    match hta : t a with
    | none => rw [hta] at heq; simp at heq
    | some e' =>
      rw [hta] at heq
      simp only [Option.map_some', Option.some.injEq, Prod.mk.injEq] at heq
      obtain ⟨rfl, rfl⟩ := heq
      exact ⟨(mem_dedupKeys _ _).1 ha, hta⟩
  · rintro ⟨hi, hte⟩
    exact ⟨i, (mem_dedupKeys _ _).2 hi, by rw [hte]; rfl⟩

/-! ### Stream-iteration theorems -/

/-- C3: in every loop iteration that does not raise, exactly one push frame
is sent when the (post-receive) subscription list is non-empty — its payload
the live table restricted to the subscribed ids — and none when it is empty;
and the snapshot payload holds exactly the subscribed ids' entries. -/
theorem push_iff_subscription_nonempty :
    (∀ (t : Table) (subs : List String) (inb : Inbound) (subs' : List String)
        (out : List OutMsg), wsIterate t subs inb = .ok (subs', out) →
        ((subs' = [] → out.filter isUpdate = [])
         ∧ (subs' ≠ [] → out.filter isUpdate = [.update (snapshot t subs')])))
    ∧ (∀ (t : Table) (subs : List String) (i : String) (e : LiveEntry),
        (i, e) ∈ snapshot t subs ↔ i ∈ subs ∧ t i = some e) := by
  refine ⟨?_, mem_snapshot⟩
  intro t subs inb subs' out h
  match inb with
  | .timeout =>
    simp only [wsIterate] at h
    by_cases hemp : subs.isEmpty
    · rw [if_pos hemp] at h
      simp only [Except.ok.injEq, Prod.mk.injEq] at h
      obtain ⟨rfl, rfl⟩ := h
      rw [List.isEmpty_iff] at hemp
      exact ⟨fun _ => rfl, fun hne => absurd hemp hne⟩
    · rw [if_neg hemp] at h
      simp only [Except.ok.injEq, Prod.mk.injEq] at h
      obtain ⟨rfl, rfl⟩ := h
      rw [List.isEmpty_iff] at hemp
      exact ⟨fun heq => absurd heq hemp, fun _ => by simp [isUpdate]⟩
  | .msg .malformed => simp [wsIterate] at h
  | .msg (.other ty) =>
    simp only [wsIterate] at h
    by_cases hemp : subs.isEmpty
    · rw [if_pos hemp] at h
      simp only [Except.ok.injEq, Prod.mk.injEq] at h
      obtain ⟨rfl, rfl⟩ := h
      rw [List.isEmpty_iff] at hemp
      exact ⟨fun _ => rfl, fun hne => absurd hemp hne⟩
    · rw [if_neg hemp] at h
      simp only [Except.ok.injEq, Prod.mk.injEq] at h
      obtain ⟨rfl, rfl⟩ := h
      rw [List.isEmpty_iff] at hemp
      exact ⟨fun heq => absurd heq hemp, fun _ => by simp [isUpdate]⟩
  | .msg (.subscribe ids) =>
    simp only [wsIterate] at h
    by_cases hemp : ((ids.getD []).filter (fun i => (t i).isSome)).isEmpty
    · rw [if_pos hemp] at h
      simp only [Except.ok.injEq, Prod.mk.injEq] at h
      obtain ⟨rfl, rfl⟩ := h
      rw [List.isEmpty_iff] at hemp
      exact ⟨fun _ => by simp [isUpdate], fun hne => absurd hemp hne⟩
    · rw [if_neg hemp] at h
      simp only [Except.ok.injEq, Prod.mk.injEq] at h
      obtain ⟨rfl, rfl⟩ := h
      rw [List.isEmpty_iff] at hemp
      exact ⟨fun heq => absurd heq hemp, fun _ => by simp [isUpdate]⟩

/-- Witness for `push_iff_subscription_nonempty` at concrete inputs. -/
theorem push_iff_subscription_nonempty_witness :
    ([OutMsg.update (snapshot sampleTable ["stk_TCS"])].filter isUpdate
      = [OutMsg.update (snapshot sampleTable ["stk_TCS"])])
    ∧ (("stk_TCS", ⟨"₹" ++ fmt2 300, fmtSigned2 2 ++ "%", 1700000000⟩)
        ∈ snapshot sampleTable ["stk_TCS"]
      ↔ "stk_TCS" ∈ ["stk_TCS"]
        ∧ sampleTable "stk_TCS" = some ⟨"₹" ++ fmt2 300, fmtSigned2 2 ++ "%", 1700000000⟩) :=
  ⟨(push_iff_subscription_nonempty.1 sampleTable ["stk_TCS"] .timeout ["stk_TCS"]
      [OutMsg.update (snapshot sampleTable ["stk_TCS"])] rfl).2 (by decide),
    push_iff_subscription_nonempty.2 sampleTable ["stk_TCS"] "stk_TCS"
      ⟨"₹" ++ fmt2 300, fmtSigned2 2 ++ "%", 1700000000⟩⟩

/-- C6 amended: a message parsing to a JSON object whose type is not
`subscribe` is ignored — no reply, subscription unchanged, and the iteration
proceeds to its push step exactly as a timed-out receive does.  (An
unparseable payload, by contrast, raises and terminates the handler — see
the counterexample.) -/
theorem unknown_type_ignored :
    (∀ (t : Table) (subs : List String) (ty : Option String),
        wsIterate t subs (.msg (.other ty)) = wsIterate t subs .timeout)
    ∧ (∀ (t : Table) (subs : List String),
        wsIterate t subs .timeout
          = if subs.isEmpty then .ok (subs, [])
            else .ok (subs, [.update (snapshot t subs)])) := by
  refine ⟨fun t subs ty => rfl, fun t subs => ?_⟩
  simp only [wsIterate]
  split
  · rfl
  · rfl

/-- C6 counterexample: an unparseable payload received before the timeout is
not swallowed: `json.loads` raises outside the `except asyncio.TimeoutError`
clause, terminating the iteration (and the handler) instead of continuing to
the push step with the subscription unchanged. -/
theorem malformed_message_terminates_cex :
    wsIterate sampleTable ["stk_TCS"] (.msg .malformed) = .error ()
    ∧ (Except.error () : Except Unit (List String × List OutMsg))
        ≠ .ok (["stk_TCS"], [.update (snapshot sampleTable ["stk_TCS"])]) :=
  ⟨rfl, fun h => Except.noConfusion h⟩

/-- C2 amended: a subscribe message replaces the subscription wholesale
(the previous subscription is irrelevant) with the order-preserving filter
of the requested list to ids present in the table — every occurrence kept,
so duplicate valid ids appear once per occurrence — and the confirmation
lists exactly that filtered list; when the request has no duplicates this is
exactly the valid subset in order of first occurrence. -/
theorem subscribe_replaces_and_confirms_filtered :
    ∀ (t : Table) (subs requested : List String),
      (wsIterate t subs (.msg (.subscribe (some requested)))
        = (let subs' := requested.filter (fun i => (t i).isSome)
           if subs'.isEmpty then Except.ok (subs', [.subscribedMsg subs'])
           else .ok (subs', [.subscribedMsg subs', .update (snapshot t subs')])))
      ∧ (∀ subs₂, wsIterate t subs (.msg (.subscribe (some requested)))
          = wsIterate t subs₂ (.msg (.subscribe (some requested))))
      ∧ (requested.filter (fun i => (t i).isSome)).Sublist requested
      ∧ (requested.Nodup →
          requested.filter (fun i => (t i).isSome) = specValidSubset t requested) := by
  intro t subs requested
  refine ⟨rfl, fun subs₂ => rfl, List.filter_sublist _, fun hnd => ?_⟩
  rw [specValidSubset, dedupKeys_eq_self (hnd.filter _)]

/-- Witness for `subscribe_replaces_and_confirms_filtered` at concrete
inputs. -/
theorem subscribe_replaces_and_confirms_filtered_witness :
    (["stk_TCS", "zzz"] : List String).Nodup
    ∧ (["stk_TCS", "zzz"].filter (fun i => (sampleTable i).isSome)
        = specValidSubset sampleTable ["stk_TCS", "zzz"]) :=
  ⟨by decide,
    (subscribe_replaces_and_confirms_filtered sampleTable [] ["stk_TCS", "zzz"]).2.2.2
      (by decide)⟩

/-- C2 counterexample: a request repeating a valid id (`stk_TCS` twice, plus
the invalid `zzz`) is answered with the duplicate retained — not with the
valid subset listed once per id in order of first occurrence, which would be
`["stk_TCS"]`. -/
theorem subscribe_duplicate_ids_cex :
    wsIterate sampleTable [] (.msg (.subscribe (some ["stk_TCS", "zzz", "stk_TCS"])))
      = .ok (["stk_TCS", "stk_TCS"],
          [.subscribedMsg ["stk_TCS", "stk_TCS"],
           .update (snapshot sampleTable ["stk_TCS", "stk_TCS"])])
    ∧ specValidSubset sampleTable ["stk_TCS", "zzz", "stk_TCS"] = ["stk_TCS"]
    ∧ (["stk_TCS", "stk_TCS"] : List String) ≠ ["stk_TCS"] :=
  ⟨rfl, by decide, by decide⟩

/-! ### Intent-router theorems -/

/-- C8: the router normalizes (strip, then lower-case) and tests the keyword
sets in fixed priority order — templates, hotels, stocks, catch-all — first
match winning, with `"all"` when nothing matches; in particular
`"show me hotels in goa"` (in any casing/padding) routes to `"hotels"`. -/
theorem route_intent_keyword_priority :
    route_intent "show me hotels in goa" = "hotels"
    ∧ route_intent "  SHOW ME Hotels IN GOA  " = "hotels"
    ∧ (∀ m : String, anyKw templateKws (normQuery m) = true →
        route_intent m = "templates")
    ∧ (∀ m : String, anyKw templateKws (normQuery m) = false →
        anyKw hotelKws (normQuery m) = true → route_intent m = "hotels")
    ∧ (∀ m : String, anyKw templateKws (normQuery m) = false →
        anyKw hotelKws (normQuery m) = false →
        anyKw stockKws (normQuery m) = true → route_intent m = "stocks")
    ∧ (∀ m : String, anyKw templateKws (normQuery m) = false →
        anyKw hotelKws (normQuery m) = false →
        anyKw stockKws (normQuery m) = false → route_intent m = "all") := by
  refine ⟨by decide, by decide, ?_, ?_, ?_, ?_⟩
  · intro m h1
    simp [route_intent, h1]
  · intro m h1 h2
    simp [route_intent, h1, h2]
  · intro m h1 h2 h3
    simp [route_intent, h1, h2, h3]
  · intro m h1 h2 h3
    simp [route_intent, h1, h2, h3]

/-- Witness for `route_intent_keyword_priority` at a concrete message. -/
theorem route_intent_keyword_priority_witness :
    anyKw templateKws (normQuery "show me hotels in goa") = false
    ∧ anyKw hotelKws (normQuery "show me hotels in goa") = true
    ∧ route_intent "show me hotels in goa" = "hotels" :=
  ⟨by decide, by decide,
    route_intent_keyword_priority.2.2.2.1 "show me hotels in goa" (by decide) (by decide)⟩

/-! ### Order-endpoint theorems (spec-modelled; no handler in src/) -/

/-- C9 amended: for a known symbol and a valid side, any `qty ≤ 0` yields
exactly the structured error `{ok: false, error: "Qty must be > 0"}` as a
normal result; in particular the `NSE:RELIANCE`/`BUY`/`0` scenario does.
(An unknown symbol is reported as a symbol error first — see the
counterexample.) -/
theorem order_qty_validation :
    (∀ (symbol side : String) (qty : Int) (ts r : Nat),
        symbol ∈ knownSymbols → (side = "BUY" ∨ side = "SELL") → qty ≤ 0 →
        api_order symbol side qty ts r = .failure "Qty must be > 0")
    ∧ (∀ ts r : Nat, api_order "NSE:RELIANCE" "BUY" 0 ts r
        = .failure "Qty must be > 0") := by
  have main : ∀ (symbol side : String) (qty : Int) (ts r : Nat),
      symbol ∈ knownSymbols → (side = "BUY" ∨ side = "SELL") → qty ≤ 0 →
      api_order symbol side qty ts r = .failure "Qty must be > 0" := by
    intro symbol side qty ts r hsym hside hqty
    rw [api_order, if_neg (not_not_intro hsym),
      if_neg (by rcases hside with rfl | rfl <;> simp), if_pos hqty]
  exact ⟨main, fun ts r => main _ _ _ _ _ (by decide) (Or.inl rfl) (by decide)⟩

/-- Witness for `order_qty_validation` at concrete inputs. -/
theorem order_qty_validation_witness :
    ("NSE:RELIANCE" ∈ knownSymbols) ∧ ((0 : Int) ≤ 0)
    ∧ api_order "NSE:RELIANCE" "BUY" 0 5 6 = .failure "Qty must be > 0" :=
  ⟨by decide, by decide,
    order_qty_validation.1 "NSE:RELIANCE" "BUY" 0 5 6 (by decide) (Or.inl rfl) (by decide)⟩

/-- C9 counterexample: with the checks in the spec's listing order (symbol,
then side, then qty), a zero-quantity order for an unknown symbol is
answered with the symbol error, not the qty error — so the qty error is not
returned for *any* symbol and side. -/
theorem order_unknown_symbol_qty_cex :
    api_order "NSE:ZZZ" "BUY" 0 1 2 = .failure "Unknown symbol"
    ∧ (OrderResp.failure "Unknown symbol") ≠ .failure "Qty must be > 0" :=
  ⟨by decide, by decide⟩

end StockChat
